import Mathlib

/-!
# Verification of the better-qdrant MCP server core

A shallow embedding, in Lean 4, of the document ingestion and retrieval
pipeline of the better-qdrant vector-store server: the transport-security
policy of the store client constructor, file-path sanitization, the
Ollama embedding batch protocol, embedding-provider resolution, the
ingest orchestration (collection creation and point assembly) and the
search-result formatting and parsing.

JavaScript string truthiness (`s || t` treats the empty string as false)
is modelled explicitly by `jsTruthyStr` / `optTruthy` / `jsOrStr`.
-/

namespace BetterQdrant

/-- JS truthiness for a string value: every string except `""` is truthy. -/
def jsTruthyStr (s : String) : Bool := s != ""

/-- JS truthiness for a possibly-undefined string (`undefined` and `""` are falsy). -/
def optTruthy : Option String → Bool
  | none => false
  | some s => s != ""

/-- The JS expression `a || b` for a string `a` and a possibly-undefined `b`. -/
def jsOrStr (a : String) (b : Option String) : Option String :=
  if jsTruthyStr a then some a else b

/-! ## Store client construction (src/services/qdrant.ts, `createQdrantService`) -/

/-- The fields of the parsed `new URL(url)` object that `createQdrantService`
inspects: the protocol (e.g. `"https:"`, `"http:"`) and the hostname. -/
structure UrlObj where
  protocol : String
  hostname : String
deriving DecidableEq, Repr

/-- The local-host recognition check of `createQdrantService`:
`urlObj.hostname === 'localhost' || urlObj.hostname === '127.0.0.1' ||
urlObj.hostname === 'host.container.internal'`. -/
def isLocalhost (u : UrlObj) : Bool :=
  u.hostname == "localhost" || u.hostname == "127.0.0.1" ||
    u.hostname == "host.container.internal"

/-- Outcome of `createQdrantService`: either construction proceeds
(`started`, recording whether the insecure-local-connection warning was
logged) or it throws the security-policy error (`securityFailure`). -/
inductive QdrantConstruction where
  | started (warned : Bool)
  | securityFailure (msg : String)
deriving DecidableEq, Repr

/-- `createQdrantService(url, apiKey)` security gate (src/services/qdrant.ts):
if an API key is supplied (JS-truthy) and the protocol is not `https:`,
then construction throws for a non-local host and merely warns for a
local host; otherwise construction proceeds with no warning. -/
def createQdrantService (url : UrlObj) (apiKey : Option String) : QdrantConstruction :=
  if optTruthy apiKey then
    if url.protocol != "https:" then
      if !(isLocalhost url) then
        .securityFailure
          "Insecure Qdrant API key usage detected for non-local connection. Server will not start."
      else
        .started true
    else
      .started false
  else
    .started false

/-- Whether a construction outcome is a success (possibly with a warning). -/
def QdrantConstruction.isStarted : QdrantConstruction → Bool
  | .started _ => true
  | .securityFailure _ => false

/-- C1: with a credential, a non-https scheme and a non-local host,
`createQdrantService` fails with the security-policy error; with a local
host it succeeds and only flags the warning; with an https scheme it
succeeds regardless of host; and without a credential it never fails this
check regardless of scheme and host. -/
theorem createQdrantService_security_policy (url : UrlObj) (apiKey : Option String) :
    (optTruthy apiKey = true → url.protocol ≠ "https:" → isLocalhost url = false →
      createQdrantService url apiKey =
        .securityFailure
          "Insecure Qdrant API key usage detected for non-local connection. Server will not start.") ∧
    (optTruthy apiKey = true → url.protocol ≠ "https:" → isLocalhost url = true →
      createQdrantService url apiKey = .started true) ∧
    (url.protocol = "https:" →
      createQdrantService url apiKey = .started false) ∧
    (optTruthy apiKey = false →
      createQdrantService url apiKey = .started false) := by
  refine ⟨?_, ?_, ?_, ?_⟩
  · intro hk hp hl
    simp [createQdrantService, hk, hl, String.ext_iff] at *
    simp [hk, hl, hp]
  · intro hk hp hl
    simp [createQdrantService, hk, hl, String.ext_iff] at *
    simp [hk, hl, hp]
  · intro hp
    by_cases hk : optTruthy apiKey <;>
      simp [createQdrantService, hk, hp]
  · intro hk
    simp [createQdrantService, hk]

/-- Witness for C1: concrete evaluations of the four branches of the
security policy. -/
theorem createQdrantService_security_policy_witness :
    (createQdrantService ⟨"http:", "qdrant.example.com"⟩ (some "secret") =
      .securityFailure
        "Insecure Qdrant API key usage detected for non-local connection. Server will not start.") ∧
    (createQdrantService ⟨"http:", "localhost"⟩ (some "secret") = .started true) ∧
    (createQdrantService ⟨"https:", "qdrant.example.com"⟩ (some "secret") = .started false) ∧
    (createQdrantService ⟨"http:", "qdrant.example.com"⟩ none = .started false) := by
  refine ⟨?_, ?_, ?_, ?_⟩
  · exact (createQdrantService_security_policy ⟨"http:", "qdrant.example.com"⟩ (some "secret")).1
      (by decide) (by decide) (by decide)
  · exact (createQdrantService_security_policy ⟨"http:", "localhost"⟩ (some "secret")).2.1
      (by decide) (by decide) (by decide)
  · exact (createQdrantService_security_policy ⟨"https:", "qdrant.example.com"⟩ (some "secret")).2.2.1
      (by decide)
  · exact (createQdrantService_security_policy ⟨"http:", "qdrant.example.com"⟩ none).2.2.2
      (by decide)

/-! ## File-path sanitization (src/index.ts, `sanitizeFilePath`)

`sanitizeFilePath` computes `path.resolve(BASE_UPLOAD_DIR, unsafePath)` and
rejects when the resolved string does not start with `BASE_UPLOAD_DIR`.
Node's `path.resolve` with an absolute base is modelled componentwise:
split on `/`, process `.` and `..` (clamping at the root), and render the
absolute result. -/

/-- Split a character list into the chunks delimited by `/`. -/
def splitSlashAux (cur : List Char) : List Char → List String
  | [] => [String.mk cur.reverse]
  | c :: rest =>
    if c = '/' then String.mk cur.reverse :: splitSlashAux [] rest
    else splitSlashAux (c :: cur) rest

/-- Split an (absolute or relative) POSIX path into its non-empty components. -/
def splitPath (s : String) : List String :=
  (splitSlashAux [] s.data).filter (fun c => c != "")

/-- Boolean string-prefix test (JS `String.prototype.startsWith`),
computed structurally over the character lists. -/
def charsStart : List Char → List Char → Bool
  | _, [] => true
  | [], _ :: _ => false
  | c :: cs, p :: ps => c == p && charsStart cs ps

/-- `s.startsWith(pre)` in JS. -/
def strStarts (s pre : String) : Bool := charsStart s.data pre.data

/-- Normalize a component list with a stack: `.` is dropped, `..` pops the
last kept component (and is dropped at the root, as absolute-path
resolution clamps there). -/
def normalizeAux (stack : List String) : List String → List String
  | [] => stack.reverse
  | c :: rest =>
    if c == "." then normalizeAux stack rest
    else if c == ".." then normalizeAux (stack.drop 1) rest
    else normalizeAux (c :: stack) rest

/-- Join path components with `/`. -/
def joinSlash : List String → String
  | [] => ""
  | [c] => c
  | c :: rest => c ++ "/" ++ joinSlash rest

/-- `path.resolve(base, unsafePath)` for an absolute `base`: if `unsafePath`
is absolute it wins, otherwise its components are appended to `base`'s;
the result is the normalized absolute path string. -/
def resolvePath (base unsafePath : String) : String :=
  let comps :=
    if strStarts unsafePath "/" then splitPath unsafePath
    else splitPath base ++ splitPath unsafePath
  "/" ++ joinSlash (normalizeAux [] comps)

/-- Error kind thrown via `McpError(ErrorCode.InvalidParams, ...)`. -/
inductive McpErr where
  | invalidParams (msg : String)
deriving DecidableEq, Repr

/-- `sanitizeFilePath(unsafePath)` (src/index.ts): resolve against the base
upload directory and reject unless the resolved string starts with the
base directory string. -/
def sanitizeFilePath (baseUploadDir unsafePath : String) : Except McpErr String :=
  let resolved := resolvePath baseUploadDir unsafePath
  if strStarts resolved baseUploadDir then .ok resolved
  else .error (.invalidParams "File path attempts to access forbidden directory.")

/-- A resolved absolute path remains within the base directory iff it is the
base directory itself or lies strictly below it (next character a `/`). -/
def withinBaseDir (base p : String) : Bool :=
  p == base || strStarts p (base ++ "/")

/-- C2 (failing input): with the default base upload directory
`/tmp/mcp-uploads`, the caller-supplied path `../mcp-uploads-evil/secret.txt`
resolves to `/tmp/mcp-uploads-evil/secret.txt`, which is outside the base
upload directory, yet `sanitizeFilePath` accepts it (the raw `startsWith`
check matches the sibling directory's name prefix) and the file would then
be read.  This contradicts the sanitizer's stated purpose of keeping reads
within the base upload directory. -/
theorem sanitizeFilePath_escapes_base_dir :
    sanitizeFilePath "/tmp/mcp-uploads" "../mcp-uploads-evil/secret.txt" =
      .ok "/tmp/mcp-uploads-evil/secret.txt" ∧
    withinBaseDir "/tmp/mcp-uploads" "/tmp/mcp-uploads-evil/secret.txt" = false := by
  constructor
  · rfl
  · rfl


/-! ## Ollama embedding service (src/services/embeddings/ollama.ts)

`generateEmbeddings` walks the input texts in batches of the fixed
concurrency limit 5 (`texts.slice(i, i + 5)`), maps every text of a batch
to an HTTP request (all issued at once), awaits the whole batch before the
next batch starts, and finally collects every embedding in input order.
The provider is modelled by an oracle from texts to responses; a JSON-ish
value type records what the `embedding` field of a 2xx body holds. -/

/-- A JSON value, as far as the embedding and search response parsing
inspects it.  The code only carries numeric values around (it never
computes with them), so numbers are modelled as integers. -/
inductive JVal where
  | jnull
  | jbool (b : Bool)
  | jnum (n : Int)
  | jstr (s : String)
  | jarr (elems : List JVal)

/-- Whether a JSON value is a number. -/
def JVal.isNum : JVal → Bool
  | .jnum _ => true
  | _ => false

/-- The number held by a JSON value, if any. -/
def JVal.asNum : JVal → Option Int
  | .jnum n => some n
  | _ => none

/-- What `axios.post` to `{endpoint}/api/embeddings` yields for one text:
either the request fails (non-2xx or transport failure, axios throws), or
a 2xx body whose `embedding` field holds the given JSON value (or is
absent). -/
inductive OllamaResponse where
  | httpFailure (status : Nat)
  | success (embeddingField : Option JVal)

/-- Error kinds escaping `generateEmbeddings`: a transport/HTTP error
propagated from axios, or the `McpError(ErrorCode.InternalError, ...)`
thrown on a malformed 2xx body. -/
inductive EmbErr where
  | transport (status : Nat)
  | mcpInternalError (msg : String)
deriving DecidableEq, Repr

/-- One request of the batch: on a 2xx body the `embedding` field must be
present and an array (`!response.data.embedding || !Array.isArray(...)`),
otherwise `McpError(ErrorCode.InternalError, 'Invalid response from Ollama
API')` is thrown; a failed request propagates the axios error. -/
def fetchEmbedding (oracle : String → OllamaResponse) (text : String) :
    Except EmbErr (List JVal) :=
  match oracle text with
  | .httpFailure status => .error (.transport status)
  | .success field =>
    match field with
    | some (.jarr xs) => .ok xs
    | _ => .error (.mcpInternalError "Invalid response from Ollama API")

/-- Collect the results of a list of fallible requests in input order,
failing as soon as one fails (the semantics of `Promise.all` over the
ordered promise array). -/
def collectE (f : α → Except ε β) : List α → Except ε (List β)
  | [] => .ok []
  | x :: xs =>
    match f x with
    | .error e => .error e
    | .ok y =>
      match collectE f xs with
      | .error e => .error e
      | .ok ys => .ok (y :: ys)

/-- `texts.slice(i, i + 5)` batching of the loop
`for (let i = 0; i < texts.length; i += concurrencyLimit)` with the fixed
`concurrencyLimit = 5`: consecutive slices of five elements, the last
slice possibly shorter. -/
def chunk5 : List α → List (List α)
  | [] => []
  | [a] => [[a]]
  | [a, b] => [[a, b]]
  | [a, b, c] => [[a, b, c]]
  | [a, b, c, d] => [[a, b, c, d]]
  | a :: b :: c :: d :: e :: rest => [a, b, c, d, e] :: chunk5 rest

/-- Run the batches in order: each batch awaits all of its requests
(`await Promise.all(batchPromises)`) and a failing batch aborts the loop,
so no later batch runs; on success all embeddings are returned in input
order. -/
def runBatches (oracle : String → OllamaResponse) :
    List (List String) → Except EmbErr (List (List JVal))
  | [] => .ok []
  | b :: bs =>
    match collectE (fetchEmbedding oracle) b with
    | .error e => .error e
    | .ok rb =>
      match runBatches oracle bs with
      | .error e => .error e
      | .ok rest => .ok (rb ++ rest)

/-- `OllamaEmbeddingService.generateEmbeddings(texts)`. -/
def generateEmbeddings (oracle : String → OllamaResponse) (texts : List String) :
    Except EmbErr (List (List JVal)) :=
  runBatches oracle (chunk5 texts)

/-- Chunking recovers the input: the batches are consecutive slices. -/
theorem chunk5_flatten (l : List α) : (chunk5 l).flatten = l := by
  induction l using chunk5.induct <;> simp_all [chunk5]

/-- Every batch produced by the chunking has at most 5 elements. -/
theorem chunk5_batch_length_le (l : List α) : ∀ b ∈ chunk5 l, b.length ≤ 5 := by
  induction l using chunk5.induct with
  | case1 => simp [chunk5]
  | case2 a => simp [chunk5]
  | case3 a b => simp [chunk5]
  | case4 a b c => simp [chunk5]
  | case5 a b c d => simp [chunk5]
  | case6 a b c d e rest ih =>
    intro x hx
    rcases List.mem_cons.mp hx with h | h
    · subst h; simp
    · exact ih x h

/-- `collectE` distributes over list append. -/
theorem collectE_append (f : α → Except ε β) (l₁ l₂ : List α) :
    collectE f (l₁ ++ l₂) =
      match collectE f l₁ with
      | .error e => .error e
      | .ok r₁ =>
        match collectE f l₂ with
        | .error e => .error e
        | .ok r₂ => .ok (r₁ ++ r₂) := by
  induction l₁ with
  | nil =>
    simp only [List.nil_append, collectE]
    cases collectE f l₂ <;> rfl
  | cons x xs ih =>
    simp only [List.cons_append, collectE, List.append_eq, ih]
    cases f x with
    | error e => rfl
    | ok y =>
      cases collectE f xs with
      | error e => rfl
      | ok ys =>
        cases collectE f l₂ with
        | error e => rfl
        | ok r₂ => simp

/-- Running the batch loop is collecting over the concatenated batches. -/
theorem runBatches_eq_collectE (oracle : String → OllamaResponse)
    (bs : List (List String)) :
    runBatches oracle bs = collectE (fetchEmbedding oracle) bs.flatten := by
  induction bs with
  | nil => rfl
  | cons b rest ih =>
    simp only [runBatches, List.flatten_cons, collectE_append, ih]
    cases collectE (fetchEmbedding oracle) b with
    | error e => rfl
    | ok rb =>
      cases collectE (fetchEmbedding oracle) rest.flatten with
      | error e => rfl
      | ok r => rfl

/-- `generateEmbeddings` is positionwise request collection in input order. -/
theorem generateEmbeddings_eq_collectE (oracle : String → OllamaResponse)
    (texts : List String) :
    generateEmbeddings oracle texts = collectE (fetchEmbedding oracle) texts := by
  rw [generateEmbeddings, runBatches_eq_collectE, chunk5_flatten]

/-- A successful `collectE` has one output per input, at the same position. -/
theorem collectE_ok_spec (f : α → Except ε β) (l : List α) (r : List β)
    (h : collectE f l = .ok r) :
    r.length = l.length ∧ ∀ (i : Nat) (hi : i < l.length) (hr : i < r.length),
      f (l.get ⟨i, hi⟩) = .ok (r.get ⟨i, hr⟩) := by
  induction l generalizing r with
  | nil =>
    simp only [collectE] at h
    cases h
    exact ⟨rfl, fun i hi => absurd hi (by simp)⟩
  | cons x xs ih =>
    simp only [collectE] at h
    cases hx : f x with
    | error e => rw [hx] at h; exact absurd h (by simp)
    | ok y =>
      rw [hx] at h
      cases hxs : collectE f xs with
      | error e => rw [hxs] at h; exact absurd h (by simp)
      | ok ys =>
        rw [hxs] at h
        cases h
        obtain ⟨hlen, hget⟩ := ih ys hxs
        refine ⟨by simp [hlen], ?_⟩
        intro i hi hr
        cases i with
        | zero => simpa using hx
        | succ j =>
          have hj : j < xs.length := by simpa using hi
          have hjr : j < ys.length := by simpa using hr
          simpa using hget j hj hjr

/-- C3: `generateEmbeddings` maps the empty input to the empty output, and
on success returns exactly one vector per input text, the i-th output
vector being the embedding the provider produced for the i-th input text —
positions, not completion order, determine the correspondence. -/
theorem generateEmbeddings_positionwise (oracle : String → OllamaResponse) :
    generateEmbeddings oracle [] = .ok [] ∧
    ∀ (texts : List String) (r : List (List JVal)),
      generateEmbeddings oracle texts = .ok r →
      r.length = texts.length ∧ ∀ (i : Nat) (hi : i < texts.length) (hr : i < r.length),
        fetchEmbedding oracle (texts.get ⟨i, hi⟩) = .ok (r.get ⟨i, hr⟩) := by
  constructor
  · simp [generateEmbeddings, chunk5, runBatches]
  · intro texts r h
    rw [generateEmbeddings_eq_collectE] at h
    exact collectE_ok_spec _ _ _ h

/-- Witness for C3: a two-text input against a concrete oracle, checked at
both positions. -/
theorem generateEmbeddings_positionwise_witness :
    generateEmbeddings (fun t => .success (some (.jarr [.jstr t]))) ["a", "bc"] =
      .ok [[.jstr "a"], [.jstr "bc"]] ∧
    ([[JVal.jstr "a"], [JVal.jstr "bc"]].length = ["a", "bc"].length ∧
      ∀ (i : Nat) (hi : i < ["a", "bc"].length)
        (hr : i < [[JVal.jstr "a"], [JVal.jstr "bc"]].length),
        fetchEmbedding (fun t => .success (some (.jarr [.jstr t])))
            (["a", "bc"].get ⟨i, hi⟩) =
          .ok ([[JVal.jstr "a"], [JVal.jstr "bc"]].get ⟨i, hr⟩)) := by
  have hrun : generateEmbeddings (fun t => .success (some (.jarr [.jstr t]))) ["a", "bc"] =
      .ok [[.jstr "a"], [.jstr "bc"]] := by
    simp [generateEmbeddings, chunk5, runBatches, collectE, fetchEmbedding]
  exact ⟨hrun,
    (generateEmbeddings_positionwise (fun t => .success (some (.jarr [.jstr t])))).2
      ["a", "bc"] [[.jstr "a"], [.jstr "bc"]] hrun⟩

/-- If some element of the list fails, collecting fails (there is no
partial-success mode). -/
theorem collectE_error_of_mem (f : α → Except ε β) (l : List α)
    (t : α) (ht : t ∈ l) (e : ε) (he : f t = .error e) :
    ∃ e', collectE f l = .error e' := by
  induction l with
  | nil => cases ht
  | cons x xs ih =>
    rcases List.mem_cons.mp ht with h | h
    · subst h
      exact ⟨e, by simp [collectE, he]⟩
    · obtain ⟨e', he'⟩ := ih h
      simp only [collectE, he']
      cases hx : f x with
      | error e₀ => exact ⟨e₀, rfl⟩
      | ok y => exact ⟨e', rfl⟩

/-- C5: a single failing request makes the whole `generateEmbeddings` call
fail, so no partial result is ever returned; and a 2xx response whose
`embedding` field is missing or not an array is reported as the distinct
`McpError(InternalError)` kind, which is never equal to a transport
error. -/
theorem generateEmbeddings_abort_on_failure (oracle : String → OllamaResponse) :
    (∀ (texts : List String) (t : String), t ∈ texts →
      (∃ e, fetchEmbedding oracle t = .error e) →
      ∃ e', generateEmbeddings oracle texts = .error e') ∧
    (∀ (t : String) (field : Option JVal), oracle t = .success field →
      (∀ xs, field ≠ some (.jarr xs)) →
      fetchEmbedding oracle t =
        .error (.mcpInternalError "Invalid response from Ollama API")) ∧
    (∀ (msg : String) (status : Nat),
      EmbErr.mcpInternalError msg ≠ EmbErr.transport status) := by
  refine ⟨?_, ?_, ?_⟩
  · intro texts t ht ⟨e, he⟩
    rw [generateEmbeddings_eq_collectE]
    exact collectE_error_of_mem _ _ t ht e he
  · intro t field hf hnotarr
    rw [fetchEmbedding, hf]
    cases field with
    | none => rfl
    | some v =>
      cases v with
      | jarr xs => exact absurd rfl (hnotarr xs)
      | jnull => rfl
      | jbool b => rfl
      | jnum q => rfl
      | jstr s => rfl
  · intro msg status h
    cases h

/-- Witness for C5: a concrete oracle whose second text gets a 2xx body
with a non-array `embedding` field; the whole call errors with the
internal-error kind. -/
theorem generateEmbeddings_abort_on_failure_witness :
    (∃ e', generateEmbeddings
        (fun t => if t = "bad" then .success (some (.jnum 7))
                  else .success (some (.jarr []))) ["good", "bad"] = .error e') ∧
    fetchEmbedding
        (fun t => if t = "bad" then .success (some (.jnum 7))
                  else .success (some (.jarr []))) "bad" =
      .error (.mcpInternalError "Invalid response from Ollama API") := by
  constructor
  · exact (generateEmbeddings_abort_on_failure _).1 ["good", "bad"] "bad"
      (by simp) ⟨.mcpInternalError "Invalid response from Ollama API", by rfl⟩
  · exact (generateEmbeddings_abort_on_failure _).2.1 "bad" (some (.jnum 7))
      (by rfl) (fun xs h => by cases h)

/-! ### The batch schedule (C6)

The execution of the batch loop is modelled as a trace of request events:
each batch issues all of its requests (the `batch.map(async ...)` call),
then all of them settle (`await Promise.all(batchPromises)`) before the
next batch issues anything; a batch containing a failed request makes the
`await` throw, so no later batch is ever issued. -/

/-- A request lifecycle event of the batch loop. -/
inductive BatchEv where
  | issue (text : String)
  | settle (text : String)
deriving DecidableEq, Repr

/-- Whether an event is a request issue. -/
def BatchEv.isIssue : BatchEv → Bool
  | .issue _ => true
  | .settle _ => false

/-- Whether an event is a request settling. -/
def BatchEv.isSettle : BatchEv → Bool
  | .issue _ => false
  | .settle _ => true

/-- Number of issue events in a trace. -/
def countIssues (evs : List BatchEv) : Nat := evs.countP BatchEv.isIssue

/-- Number of settle events in a trace. -/
def countSettles (evs : List BatchEv) : Nat := evs.countP BatchEv.isSettle

/-- Whether `await Promise.all` over one batch succeeds. -/
def batchOk (oracle : String → OllamaResponse) (b : List String) : Bool :=
  match collectE (fetchEmbedding oracle) b with
  | .ok _ => true
  | .error _ => false

/-- The events of one batch: all requests issued, then all settled. -/
def batchTrace (b : List String) : List BatchEv :=
  b.map BatchEv.issue ++ b.map BatchEv.settle

/-- The event trace of the whole batch loop: one batch's events, then —
only if that batch succeeded — the trace of the remaining batches. -/
def traceOf (oracle : String → OllamaResponse) : List (List String) → List BatchEv
  | [] => []
  | b :: bs => batchTrace b ++ (if batchOk oracle b then traceOf oracle bs else [])

/-- The batches whose requests are actually issued by the loop: every
batch up to and including the first failing one. -/
def issuedBatches (oracle : String → OllamaResponse) : List (List String) → List (List String)
  | [] => []
  | b :: bs => b :: (if batchOk oracle b then issuedBatches oracle bs else [])

/-- A batch trace contains one issue event per request. -/
theorem countIssues_batchTrace (b : List String) :
    countIssues (batchTrace b) = b.length := by
  simp [countIssues, batchTrace, List.countP_append, List.countP_map,
    Function.comp_def, BatchEv.isIssue]

/-- A batch trace contains one settle event per request. -/
theorem countSettles_batchTrace (b : List String) :
    countSettles (batchTrace b) = b.length := by
  simp [countSettles, batchTrace, List.countP_append, List.countP_map,
    Function.comp_def, BatchEv.isSettle]

/-- Counting is monotone along a trace decomposition. -/
theorem countP_front_le (p : BatchEv → Bool) (l₁ l₂ : List BatchEv) :
    l₁.countP p ≤ (l₁ ++ l₂).countP p := by
  simp [List.countP_append]

/-- In-flight bound along any trace of batches of size at most 5: at every
moment (every trace position) the number of issued, not-yet-settled
requests is at most 5. -/
theorem traceOf_inflight_le (oracle : String → OllamaResponse)
    (bs : List (List String)) (hb : ∀ b ∈ bs, b.length ≤ 5) :
    ∀ p q : List BatchEv, p ++ q = traceOf oracle bs →
      countIssues p ≤ countSettles p + 5 := by
  induction bs with
  | nil =>
    intro p q hpq
    have hp : p = [] := by
      have := congrArg List.length hpq
      simp [traceOf] at this
      exact this.1
    subst hp
    simp [countIssues, countSettles]
  | cons b rest ih =>
    intro p q hpq
    rw [traceOf] at hpq
    rcases List.append_eq_append_iff.mp hpq with ⟨a', ha, _⟩ | ⟨c', hp, hq⟩
    · -- p is a front part of the current batch's events
      have hle : countIssues p ≤ countIssues (batchTrace b) := by
        rw [ha]
        exact countP_front_le _ _ _
      have hlen : countIssues (batchTrace b) = b.length := countIssues_batchTrace b
      have hb5 : b.length ≤ 5 := hb b (by simp)
      omega
    · -- p covers the whole current batch plus a front part of the rest
      subst hp
      by_cases hok : batchOk oracle b
      · rw [if_pos hok] at hq
        have hrec := ih (fun x hx => hb x (by simp [hx])) c' q hq.symm
        have h1 : countIssues (batchTrace b ++ c') =
            b.length + countIssues c' := by
          simp [countIssues, List.countP_append, ← countIssues_batchTrace b,
            countIssues]
        have h2 : countSettles (batchTrace b ++ c') =
            b.length + countSettles c' := by
          simp [countSettles, List.countP_append, ← countSettles_batchTrace b,
            countSettles]
        omega
      · rw [if_neg hok] at hq
        have hc : c' = [] := List.eq_nil_of_length_eq_zero (by
          have := congrArg List.length hq
          simp at this
          omega)
        subst hc
        have h1 := countIssues_batchTrace b
        have h2 := countSettles_batchTrace b
        simp only [List.append_nil]
        omega

/-- The issued batches are exactly the batches up to and including the
first failing one (all of them when every batch succeeds). -/
theorem issuedBatches_eq_take (oracle : String → OllamaResponse)
    (bs : List (List String)) :
    issuedBatches oracle bs =
      bs.take (bs.findIdx (fun b => !(batchOk oracle b)) + 1) := by
  induction bs with
  | nil => rfl
  | cons b rest ih =>
    rw [issuedBatches, List.findIdx_cons]
    by_cases hok : batchOk oracle b
    · simp [hok, ih]
    · simp [hok]

/-- C6: the batch loop partitions the input into consecutive batches of at
most 5 texts; along its event trace the number of in-flight requests never
exceeds 5 (later batches issue nothing before the current batch fully
settles); and the issued batches are exactly those up to and including the
first failing batch, so a failure prevents every later batch from being
issued. -/
theorem generateEmbeddings_batch_schedule (oracle : String → OllamaResponse)
    (texts : List String) :
    (∀ b ∈ chunk5 texts, b.length ≤ 5) ∧
    (chunk5 texts).flatten = texts ∧
    (∀ p q : List BatchEv, p ++ q = traceOf oracle (chunk5 texts) →
      countIssues p ≤ countSettles p + 5) ∧
    issuedBatches oracle (chunk5 texts) =
      (chunk5 texts).take
        ((chunk5 texts).findIdx (fun b => !(batchOk oracle b)) + 1) := by
  refine ⟨chunk5_batch_length_le texts, chunk5_flatten texts, ?_, ?_⟩
  · exact traceOf_inflight_le oracle (chunk5 texts) (chunk5_batch_length_le texts)
  · exact issuedBatches_eq_take oracle (chunk5 texts)

/-- Witness for C6: six texts against an all-failing oracle form two
batches; the in-flight bound is applied to an explicit decomposition of
the trace (which stops after the first batch settles). -/
theorem generateEmbeddings_batch_schedule_witness :
    countIssues [BatchEv.issue "a", BatchEv.issue "b"] ≤
      countSettles [BatchEv.issue "a", BatchEv.issue "b"] + 5 := by
  have h := (generateEmbeddings_batch_schedule
    (fun _ => OllamaResponse.httpFailure 500) ["a", "b", "c", "d", "e", "f"]).2.2.1
  exact h [BatchEv.issue "a", BatchEv.issue "b"]
    [BatchEv.issue "c", BatchEv.issue "d", BatchEv.issue "e",
     BatchEv.settle "a", BatchEv.settle "b", BatchEv.settle "c",
     BatchEv.settle "d", BatchEv.settle "e"] (by decide)

/-! ## Embedding-provider resolution (src/index.ts, `handleAddDocuments` and
`handleSearch`; src/config.ts, `appConfig`)

Both handlers run the identical resolution code:
`const embeddingServiceType = appConfig.embeddingProvider || args.embeddingService;`
followed by a missing-value check and a membership check against the
recognized provider names.  `appConfig.embeddingProvider` is
`process.env.EMBEDDING_PROVIDER || 'ollama'`. -/

/-- The recognized embedding services (`allowedEmbeddingServices`). -/
def allowedEmbeddingServices : List String :=
  ["openai", "openrouter", "fastembed", "ollama"]

/-- `appConfig.embeddingProvider` (src/config.ts):
`process.env.EMBEDDING_PROVIDER || 'ollama'`. -/
def configEmbeddingProvider (envValue : Option String) : String :=
  match jsOrStr (match envValue with | none => "" | some s => s) (some "ollama") with
  | some s => s
  | none => "ollama"

/-- The provider-resolution code of `handleAddDocuments` (src/index.ts):
`appConfig.embeddingProvider || args.embeddingService`, rejecting a falsy
result and an unrecognized name. -/
def handleAddDocumentsResolve (cfgProvider : String) (argService : Option String) :
    Except McpErr String :=
  match jsOrStr cfgProvider argService with
  | none => .error (.invalidParams "Embedding service not specified in config or arguments.")
  | some t =>
    if jsTruthyStr t then
      if allowedEmbeddingServices.contains t then .ok t
      else .error (.invalidParams ("Unsupported embedding service: " ++ t ++
        ". Allowed services are: openai, openrouter, fastembed, ollama"))
    else .error (.invalidParams "Embedding service not specified in config or arguments.")

/-- The provider-resolution code of `handleSearch` (src/index.ts) — the
same statements as in `handleAddDocuments`. -/
def handleSearchResolve (cfgProvider : String) (argService : Option String) :
    Except McpErr String :=
  match jsOrStr cfgProvider argService with
  | none => .error (.invalidParams "Embedding service not specified in config or arguments.")
  | some t =>
    if jsTruthyStr t then
      if allowedEmbeddingServices.contains t then .ok t
      else .error (.invalidParams ("Unsupported embedding service: " ++ t ++
        ". Allowed services are: openai, openrouter, fastembed, ollama"))
    else .error (.invalidParams "Embedding service not specified in config or arguments.")

/-- C4: ingest and retrieve resolve the provider identically; the
process-level configuration wins over the per-call argument whenever it is
set (JS-truthy); when neither side specifies a provider the resolution
fails with a validation error; and whenever the resolved name is not one
of the recognized variants the resolution fails with a validation
error (so a successful resolution always names a recognized variant). -/
theorem provider_resolution_config_precedence :
    (∀ (cfg : String) (arg : Option String),
      handleSearchResolve cfg arg = handleAddDocumentsResolve cfg arg) ∧
    (∀ (cfg : String) (arg arg' : Option String), cfg ≠ "" →
      handleAddDocumentsResolve cfg arg = handleAddDocumentsResolve cfg arg') ∧
    (∀ (cfg : String) (arg : Option String), cfg ≠ "" →
      allowedEmbeddingServices.contains cfg →
      handleAddDocumentsResolve cfg arg = .ok cfg) ∧
    (handleAddDocumentsResolve "" none =
      .error (.invalidParams "Embedding service not specified in config or arguments.")) ∧
    (∀ (cfg : String) (arg : Option String) (t : String),
      jsOrStr cfg arg = some t →
      allowedEmbeddingServices.contains t = false →
      ∃ msg, handleAddDocumentsResolve cfg arg = .error (.invalidParams msg)) := by
  refine ⟨fun cfg arg => rfl, ?_, ?_, rfl, ?_⟩
  · intro cfg arg arg' hcfg
    simp [handleAddDocumentsResolve, jsOrStr, jsTruthyStr, hcfg]
  · intro cfg arg hcfg hmem
    have hm : cfg ∈ allowedEmbeddingServices := by simpa using hmem
    simp [handleAddDocumentsResolve, jsOrStr, jsTruthyStr, hcfg, hm]
  · intro cfg arg t ht hmem
    have hm : t ∉ allowedEmbeddingServices := by simpa using hmem
    rw [handleAddDocumentsResolve, ht]
    by_cases htruthy : jsTruthyStr t
    · simp [htruthy, hm]
    · simp [htruthy]

/-- Witness for C4: concrete resolutions — the config value `"ollama"`
beats a caller-supplied `"openai"`, and the unrecognized config value
`"foo"` is rejected. -/
theorem provider_resolution_config_precedence_witness :
    (handleAddDocumentsResolve "ollama" (some "openai") =
      handleAddDocumentsResolve "ollama" none) ∧
    (handleAddDocumentsResolve "ollama" (some "openai") = .ok "ollama") ∧
    (∃ msg, handleAddDocumentsResolve "foo" none = .error (.invalidParams msg)) := by
  refine ⟨?_, ?_, ?_⟩
  · exact provider_resolution_config_precedence.2.1 "ollama" (some "openai") none
      (by decide)
  · exact provider_resolution_config_precedence.2.2.1 "ollama" (some "openai")
      (by decide) (by decide)
  · exact provider_resolution_config_precedence.2.2.2.2 "foo" none "foo"
      (by rfl) (by decide)

/-! ## Search results and their formatting (src/services/qdrant.ts,
`DefaultQdrantService.search`; src/index.ts, `handleSearch`)

The payload of a point/result is modelled by the fields the code reads:
`payload.text`, `payload.content`, `payload.source` and
`payload.metadata?.source`, each possibly absent.  Scores are carried, not
computed with; the fractional rendering of `score.toFixed(2)` is modelled
as an exact integer score with two zero decimals. -/

/-- The payload fields read by the result formatter. -/
structure SPayload where
  text : Option String
  content : Option String
  source : Option String
  metaSource : Option String
deriving DecidableEq, Repr

/-- Join strings with `,`. -/
def joinComma : List String → String
  | [] => ""
  | [c] => c
  | c :: rest => c ++ "," ++ joinComma rest

/-- `JSON.stringify` of a payload: its present fields rendered as a JSON
object literal. -/
def jsonStringifyPayload (p : SPayload) : String :=
  let fld := fun (n : String) (v : Option String) =>
    match v with
    | none => ([] : List String)
    | some s => ["\"" ++ n ++ "\":\"" ++ s ++ "\""]
  "\x7b" ++
    joinComma (fld "text" p.text ++ fld "content" p.content ++
      fld "source" p.source ++
      (match p.metaSource with
       | none => []
       | some s => ["\"metadata\":\x7b\"source\":\"" ++ s ++ "\"\x7d"])) ++
  "\x7d"

/-- A parsed search result (src/types.ts `SearchResult`): id, score and
payload always present, the vector only when the backend sent a
well-typed one. -/
structure SearchResult where
  id : String
  score : Int
  payload : SPayload
  vector : Option (List Int)
deriving DecidableEq, Repr

/-- `score.toFixed(2)` for an integer-valued score. -/
def toFixed2 (score : Int) : String := toString score ++ ".00"

/-- The text extracted from a result payload by `handleSearch`:
`result.payload.text || result.payload.content || JSON.stringify(result.payload)`
(JS `||`, so an empty string falls through). -/
def extractText (p : SPayload) : String :=
  if optTruthy p.text then p.text.getD ""
  else if optTruthy p.content then p.content.getD ""
  else jsonStringifyPayload p

/-- The source label extracted by `handleSearch`:
`result.payload.source || result.payload.metadata?.source || ''`. -/
def extractSource (p : SPayload) : String :=
  if optTruthy p.source then p.source.getD ""
  else if optTruthy p.metaSource then p.metaSource.getD ""
  else ""

/-- One formatted result block (`responseText += ...` of the forEach). -/
def formatOneResult (index : Nat) (r : SearchResult) : String :=
  "Result " ++ toString (index + 1) ++ " (Score: " ++ toFixed2 r.score ++ "):\n" ++
    extractText r.payload ++ "\n" ++
    (if jsTruthyStr (extractSource r.payload) then
      "Source: " ++ extractSource r.payload ++ "\n"
     else "") ++
  "\n"

/-- The accumulated `responseText` over all results, with running index. -/
def formatAll (index : Nat) : List SearchResult → String
  | [] => ""
  | r :: rest => formatOneResult index r ++ formatAll (index + 1) rest

/-- The final response text of `handleSearch`: the accumulated blocks, or
`'No results found.'` when the accumulated string is empty. -/
def searchResponseText (results : List SearchResult) : String :=
  let responseText := formatAll 0 results
  if responseText == "" then "No results found." else responseText

/-- The claim's reading of the extraction, for comparison: prefer the
`text` field whenever it is PRESENT (even empty), then the `content`
field whenever present, then the serialized payload. -/
def claimedExtractText (p : SPayload) : String :=
  match p.text with
  | some s => s
  | none =>
    match p.content with
    | some s => s
    | none => jsonStringifyPayload p

/-- C8 (counterexample): a payload whose `text` field is present but the
empty string is formatted from its `content` field, not from the `text`
field as the claim states: JS `||` skips the falsy empty string. -/
theorem extractText_presence_counterexample :
    extractText ⟨some "", some "actual content", none, none⟩ = "actual content" ∧
    claimedExtractText ⟨some "", some "actual content", none, none⟩ = "" ∧
    extractText ⟨some "", some "actual content", none, none⟩ ≠
      claimedExtractText ⟨some "", some "actual content", none, none⟩ ∧
    searchResponseText [⟨"p1", 1, ⟨some "", some "actual content", none, none⟩, none⟩] =
      "Result 1 (Score: 1.00):\nactual content\n\n" := by
  refine ⟨rfl, rfl, ?_, rfl⟩
  decide

/-- The amended extraction: prefer the `text` field when present and
non-empty, then the `content` field when present and non-empty, then the
serialized payload. -/
def amendedExtractText (p : SPayload) : String :=
  match p.text with
  | some s =>
    if s = "" then
      match p.content with
      | some c => if c = "" then jsonStringifyPayload p else c
      | none => jsonStringifyPayload p
    else s
  | none =>
    match p.content with
    | some c => if c = "" then jsonStringifyPayload p else c
    | none => jsonStringifyPayload p

/-- The amended source extraction: the `source` field when present and
non-empty, else `metadata.source` when present and non-empty, else no
label. -/
def amendedExtractSource (p : SPayload) : String :=
  match p.source with
  | some s =>
    if s = "" then
      match p.metaSource with
      | some m => if m = "" then "" else m
      | none => ""
    else s
  | none =>
    match p.metaSource with
    | some m => if m = "" then "" else m
    | none => ""

/-- One result block as prescribed by the amended claim. -/
def amendedFormatOneResult (index : Nat) (r : SearchResult) : String :=
  "Result " ++ toString (index + 1) ++ " (Score: " ++ toFixed2 r.score ++ "):\n" ++
    amendedExtractText r.payload ++ "\n" ++
    (if amendedExtractSource r.payload ≠ "" then
      "Source: " ++ amendedExtractSource r.payload ++ "\n"
     else "") ++
  "\n"

/-- The blocks of all results as prescribed by the amended claim. -/
def amendedFormatAll (index : Nat) : List SearchResult → String
  | [] => ""
  | r :: rest => amendedFormatOneResult index r ++ amendedFormatAll (index + 1) rest

/-- The code's extraction agrees with the amended (non-empty-preferring)
extraction. -/
theorem extractText_eq_amended (p : SPayload) :
    extractText p = amendedExtractText p := by
  obtain ⟨t, c, s, m⟩ := p
  cases t with
  | none =>
    cases c with
    | none => rfl
    | some cv =>
      by_cases hc : cv = "" <;>
        simp [extractText, amendedExtractText, optTruthy, hc, Option.getD]
  | some tv =>
    by_cases ht : tv = ""
    · cases c with
      | none => simp [extractText, amendedExtractText, optTruthy, ht, Option.getD]
      | some cv =>
        by_cases hc : cv = "" <;>
          simp [extractText, amendedExtractText, optTruthy, ht, hc, Option.getD]
    · simp [extractText, amendedExtractText, optTruthy, ht, Option.getD]

/-- The code's source-label extraction agrees with the amended one. -/
theorem extractSource_eq_amended (p : SPayload) :
    extractSource p = amendedExtractSource p := by
  obtain ⟨t, c, s, m⟩ := p
  cases s with
  | none =>
    cases m with
    | none => rfl
    | some mv =>
      by_cases hm : mv = "" <;>
        simp [extractSource, amendedExtractSource, optTruthy, hm, Option.getD]
  | some sv =>
    by_cases hs : sv = ""
    · cases m with
      | none => simp [extractSource, amendedExtractSource, optTruthy, hs, Option.getD]
      | some mv =>
        by_cases hm : mv = "" <;>
          simp [extractSource, amendedExtractSource, optTruthy, hs, hm, Option.getD]
    · simp [extractSource, amendedExtractSource, optTruthy, hs, Option.getD]

/-- Each code block equals its amended prescription. -/
theorem formatOneResult_eq_amended (index : Nat) (r : SearchResult) :
    formatOneResult index r = amendedFormatOneResult index r := by
  rw [formatOneResult, amendedFormatOneResult, extractText_eq_amended,
    extractSource_eq_amended]
  by_cases h : amendedExtractSource r.payload = "" <;>
    simp [jsTruthyStr, h]

/-- The accumulated text equals its amended prescription. -/
theorem formatAll_eq_amended (index : Nat) (results : List SearchResult) :
    formatAll index results = amendedFormatAll index results := by
  induction results generalizing index with
  | nil => rfl
  | cons r rest ih =>
    rw [formatAll, amendedFormatAll, formatOneResult_eq_amended, ih]

/-- A string of length zero is the empty string. -/
theorem string_eq_empty_of_length (s : String) (h : s.length = 0) : s = "" := by
  cases s with
  | mk data =>
    have hd : data = [] := List.eq_nil_of_length_eq_zero h
    subst hd
    rfl

/-- A formatted block is never the empty string (it starts `Result ...`). -/
theorem formatOneResult_ne_empty (index : Nat) (r : SearchResult) :
    formatOneResult index r ≠ "" := by
  intro h
  have hl := congrArg String.length h
  rw [formatOneResult] at hl
  simp only [String.length_append] at hl
  have h7 : ("Result " : String).length = 7 := rfl
  have h0 : ("" : String).length = 0 := rfl
  omega

/-- C8 (amended): the search response text is the explicit
`'No results found.'` exactly when the result list is empty, and otherwise
is the concatenation, one block per result in the given (score-descending)
order, of blocks whose text is the payload's non-empty `text` field,
otherwise its non-empty `content` field, otherwise the serialized payload,
with the source label appended when a non-empty one is present. -/
theorem searchResponseText_spec (results : List SearchResult) :
    searchResponseText results =
      if results = [] then "No results found." else amendedFormatAll 0 results := by
  cases results with
  | nil => rfl
  | cons r rest =>
    have hne : formatAll 0 (r :: rest) ≠ "" := by
      rw [formatAll]
      intro h
      have hl := congrArg String.length h
      rw [String.length_append] at hl
      have h0 : ("" : String).length = 0 := rfl
      exact formatOneResult_ne_empty 0 r
        (string_eq_empty_of_length _ (by omega))
    have hbeq : (formatAll 0 (r :: rest) == "") = false := by
      simpa using hne
    rw [searchResponseText]
    simp only [hbeq, Bool.false_eq_true, if_false,
      if_neg (List.cons_ne_nil r rest)]
    exact formatAll_eq_amended 0 (r :: rest)

/-! ## Defensive parsing of search responses (src/services/qdrant.ts,
`DefaultQdrantService.search`) -/

/-- One entry of the backend's `result` array as received over the wire:
`id`, `score` and `payload` as typed, and whatever value (if any) the
`vector` field holds at runtime. -/
structure RawSearchHit where
  id : String
  score : Int
  payload : SPayload
  vector : Option JVal

/-- The mapping `data.result.map(result => ...)` of
`DefaultQdrantService.search`: id, score and payload are carried over;
the vector is attached only when
`Array.isArray(result.vector) && result.vector.every(v => typeof v === 'number')`. -/
def parseSearchResult (hit : RawSearchHit) : SearchResult :=
  { id := hit.id
    score := hit.score
    payload := hit.payload
    vector :=
      match hit.vector with
      | some (.jarr xs) =>
        if xs.all JVal.isNum then some (xs.filterMap JVal.asNum) else none
      | _ => none }

/-- The full response mapping of `DefaultQdrantService.search`. -/
def searchParseResults (hits : List RawSearchHit) : List SearchResult :=
  hits.map parseSearchResult

/-- C9: every parsed search result carries over id, score and payload
unchanged; its optional vector is present exactly when the backend's
`vector` value is an array all of whose elements are numbers (and then it
is that number sequence); otherwise the vector is omitted, never a
placeholder.  The response mapping applies this entrywise. -/
theorem search_vector_defensive_parsing :
    (∀ hit : RawSearchHit,
      (parseSearchResult hit).id = hit.id ∧
      (parseSearchResult hit).score = hit.score ∧
      (parseSearchResult hit).payload = hit.payload) ∧
    (∀ (hit : RawSearchHit) (xs : List JVal),
      hit.vector = some (.jarr xs) → xs.all JVal.isNum = true →
      (parseSearchResult hit).vector = some (xs.filterMap JVal.asNum)) ∧
    (∀ hit : RawSearchHit,
      (parseSearchResult hit).vector.isSome = true ↔
        ∃ xs, hit.vector = some (.jarr xs) ∧ xs.all JVal.isNum = true) ∧
    (∀ hits : List RawSearchHit,
      searchParseResults hits = hits.map parseSearchResult) := by
  refine ⟨fun hit => ⟨rfl, rfl, rfl⟩, ?_, ?_, fun hits => rfl⟩
  · intro hit xs hv hall
    simp [parseSearchResult, hv, hall]
  · intro hit
    constructor
    · intro hsome
      rw [parseSearchResult] at hsome
      cases hv : hit.vector with
      | none => rw [hv] at hsome; simp at hsome
      | some v =>
        cases v with
        | jarr xs =>
          refine ⟨xs, rfl, ?_⟩
          rw [hv] at hsome
          by_cases hall : xs.all JVal.isNum
          · exact hall
          · simp [hall] at hsome
        | jnull => rw [hv] at hsome; simp at hsome
        | jbool b => rw [hv] at hsome; simp at hsome
        | jnum n => rw [hv] at hsome; simp at hsome
        | jstr s => rw [hv] at hsome; simp at hsome
    · intro ⟨xs, hv, hall⟩
      simp [parseSearchResult, hv, hall]

/-- Witness for C9: a well-typed vector is kept as its number sequence, a
mixed-type vector and a missing vector are omitted. -/
theorem search_vector_defensive_parsing_witness :
    (parseSearchResult ⟨"a", 3, ⟨none, none, none, none⟩,
        some (.jarr [.jnum 1, .jnum 2])⟩).vector = some [1, 2] ∧
    (parseSearchResult ⟨"b", 4, ⟨none, none, none, none⟩,
        some (.jarr [.jnum 1, .jstr "x"])⟩).vector = none ∧
    (parseSearchResult ⟨"c", 5, ⟨none, none, none, none⟩, none⟩).vector = none := by
  refine ⟨?_, rfl, rfl⟩
  exact search_vector_defensive_parsing.2.1
    ⟨"a", 3, ⟨none, none, none, none⟩, some (.jarr [.jnum 1, .jnum 2])⟩
    [.jnum 1, .jnum 2] rfl (by decide)

/-! ## Ingest orchestration (src/index.ts, `handleAddDocuments`)

After embedding, `handleAddDocuments` lists the collections, creates the
destination collection (with the provider's `vectorSize`) only when its
name is absent from the listing, and then upserts all assembled points in
one `addDocuments` call. -/

/-- A point sent to the store (src/types.ts): id, vector, payload. -/
structure QPoint where
  id : String
  vector : List Int
  payload : SPayload
deriving DecidableEq, Repr

/-- A store call issued by the orchestrator. -/
inductive StoreCall where
  | createCollection (name : String) (vectorSize : Nat)
  | addDocuments (name : String) (points : List QPoint)
deriving DecidableEq, Repr

/-- The store calls of the tail of `handleAddDocuments`: create the
collection only if `!collections.includes(args.collection)`, then upsert
the points. -/
def ingestStoreCalls (collections : List String) (collection : String)
    (vectorSize : Nat) (points : List QPoint) : List StoreCall :=
  (if collections.contains collection then []
   else [.createCollection collection vectorSize]) ++
  [.addDocuments collection points]

/-- C7: when the destination collection is absent from the listing, the
orchestrator issues exactly a create-collection call with the provider's
vector size followed by the upsert; when it is present, no
create-collection call for it is ever issued (only the upsert). -/
theorem ingest_creates_collection_iff_absent (collections : List String)
    (collection : String) (vectorSize : Nat) (points : List QPoint) :
    (collections.contains collection = false →
      ingestStoreCalls collections collection vectorSize points =
        [.createCollection collection vectorSize,
         .addDocuments collection points]) ∧
    (collections.contains collection = true →
      ingestStoreCalls collections collection vectorSize points =
        [.addDocuments collection points] ∧
      ∀ size, StoreCall.createCollection collection size ∉
        ingestStoreCalls collections collection vectorSize points) := by
  constructor
  · intro h
    have hm : collection ∉ collections := by simpa using h
    simp [ingestStoreCalls, hm]
  · intro h
    have hm : collection ∈ collections := by simpa using h
    refine ⟨by simp [ingestStoreCalls, hm], ?_⟩
    intro size hmem
    simp [ingestStoreCalls, hm] at hmem

/-- Witness for C7: a concrete listing without and with the destination
collection. -/
theorem ingest_creates_collection_iff_absent_witness :
    (ingestStoreCalls ["other"] "docs" 768 [] =
      [.createCollection "docs" 768, .addDocuments "docs" []]) ∧
    (ingestStoreCalls ["docs", "other"] "docs" 768 [] =
      [.addDocuments "docs" []]) := by
  constructor
  · exact (ingest_creates_collection_iff_absent ["other"] "docs" 768 []).1
      (by decide)
  · exact ((ingest_creates_collection_iff_absent ["docs", "other"] "docs" 768 []).2
      (by decide)).1

/-! ## Point assembly and upsert (src/index.ts, `handleAddDocuments`;
store semantics from the spec) -/

/-- A text chunk as consumed by point assembly: its text and the source
metadata that is spread into the payload. -/
structure Chunk where
  text : String
  source : Option String
deriving DecidableEq, Repr

/-- The payload assembled for one chunk:
`{ text: chunk.text, ...chunk.metadata }`. -/
def chunkPayload (c : Chunk) : SPayload :=
  { text := some c.text, content := none, source := c.source, metaSource := none }

/-- The point assembly of `handleAddDocuments`:
`chunks.map((chunk, i) => ({ id: uuidv4(), vector: embeddings[i], payload: ... }))`.
Each `uuidv4()` call draws the next value from the fresh-id supply
`freshId`, indexed by call order; `embeddings[i]` out of range
(`undefined`) is modelled as the empty vector. -/
def buildPointsAux (freshId : Nat → String) (embeddings : List (List Int)) :
    Nat → List Chunk → List QPoint
  | _, [] => []
  | i, c :: cs =>
    { id := freshId i, vector := embeddings.getD i [], payload := chunkPayload c } ::
      buildPointsAux freshId embeddings (i + 1) cs

/-- The points upserted by one ingest call. -/
def ingestPoints (freshId : Nat → String) (chunks : List Chunk)
    (embeddings : List (List Int)) : List QPoint :=
  buildPointsAux freshId embeddings 0 chunks

/-- Modelled from the spec: the backing Qdrant store's upsert semantics for
`PUT /collections/{name}/points` — "insert-or-replace by identifier",
"points with the same id replace prior content" (the store itself is an
external service, not part of src/).  A stored point whose id matches an
incoming point is replaced; incoming points with new ids are appended. -/
def upsertPoints (existing incoming : List QPoint) : List QPoint :=
  existing.map (fun p =>
    match incoming.find? (fun q => q.id == p.id) with
    | some q => q
    | none => p) ++
  incoming.filter (fun q => !(existing.any (fun p => p.id == q.id)))

/-- The ids of the assembled points are the fresh-id supply in call order,
shifted by the starting index. -/
theorem buildPointsAux_map_id (freshId : Nat → String)
    (embeddings : List (List Int)) (i : Nat) (chunks : List Chunk) :
    (buildPointsAux freshId embeddings i chunks).map QPoint.id =
      (List.range chunks.length).map (fun j => freshId (i + j)) := by
  induction chunks generalizing i with
  | nil => rfl
  | cons c cs ih =>
    simp only [buildPointsAux, List.map_cons, List.length_cons, List.range_succ_eq_map,
      List.map_map, ih]
    refine List.cons_eq_cons.mpr ⟨by rw [Nat.add_zero], ?_⟩
    apply List.map_congr_left
    intro j hj
    show freshId (i + 1 + j) = freshId (i + (j + 1))
    congr 1
    omega

/-- C10: each assembled point's id is the next value of the fresh-id
supply, independent of chunk contents, embeddings and collection state
(two ingests of equally many chunks use identical id sequences); and under
the hypothesis that the fresh ids differ from every id already stored,
upserting strictly appends: every existing point survives unchanged and
the incoming points are all added, so re-ingesting a document duplicates
its chunks instead of updating them. -/
theorem ingest_fresh_ids_strictly_add (freshId : Nat → String) :
    (∀ (chunks : List Chunk) (embeddings : List (List Int)),
      (ingestPoints freshId chunks embeddings).map QPoint.id =
        (List.range chunks.length).map freshId) ∧
    (∀ (chunks chunks' : List Chunk) (embeddings embeddings' : List (List Int)),
      chunks.length = chunks'.length →
      (ingestPoints freshId chunks embeddings).map QPoint.id =
        (ingestPoints freshId chunks' embeddings').map QPoint.id) ∧
    (∀ existing incoming : List QPoint,
      (∀ q ∈ incoming, ∀ p ∈ existing, q.id ≠ p.id) →
      upsertPoints existing incoming = existing ++ incoming) := by
  refine ⟨?_, ?_, ?_⟩
  · intro chunks embeddings
    simpa using buildPointsAux_map_id freshId embeddings 0 chunks
  · intro chunks chunks' embeddings embeddings' hlen
    rw [ingestPoints, ingestPoints, buildPointsAux_map_id, buildPointsAux_map_id, hlen]
  · intro existing incoming hdisj
    rw [upsertPoints]
    have hmap : existing.map (fun p =>
        match incoming.find? (fun q => q.id == p.id) with
        | some q => q
        | none => p) = existing := by
      have hid : ∀ p ∈ existing, (fun p =>
          match incoming.find? (fun q => q.id == p.id) with
          | some q => q
          | none => p) p = id p := by
        intro p hp
        show (match incoming.find? (fun q => q.id == p.id) with
          | some q => q
          | none => p) = id p
        cases hf : incoming.find? (fun q => q.id == p.id) with
        | none => rfl
        | some q =>
          exfalso
          have hq : q ∈ incoming := List.mem_of_find?_eq_some hf
          have hbeq := List.find?_some hf
          have heq : q.id = p.id := by simpa using hbeq
          exact hdisj q hq p hp heq
      rw [List.map_congr_left hid, List.map_id]
    have hfilter : incoming.filter
        (fun q => !(existing.any (fun p => p.id == q.id))) = incoming := by
      apply List.filter_eq_self.mpr
      intro q hq
      simp only [Bool.not_eq_true', List.any_eq_false]
      intro p hp hbeq
      have heq : p.id = q.id := by simpa using hbeq
      exact hdisj q hq p hp heq.symm
    rw [hmap, hfilter]

/-- Witness for C10: one existing point with id `"old"`, one ingested
chunk with fresh id `"fresh-0"`; the upsert appends and preserves. -/
theorem ingest_fresh_ids_strictly_add_witness :
    upsertPoints [⟨"old", [0], ⟨some "kept", none, none, none⟩⟩]
        (ingestPoints (fun i => "fresh-" ++ toString i) [⟨"hello", none⟩] [[1]]) =
      [⟨"old", [0], ⟨some "kept", none, none, none⟩⟩] ++
        (ingestPoints (fun i => "fresh-" ++ toString i) [⟨"hello", none⟩] [[1]]) := by
  exact (ingest_fresh_ids_strictly_add (fun i => "fresh-" ++ toString i)).2.2
    [⟨"old", [0], ⟨some "kept", none, none, none⟩⟩]
    (ingestPoints (fun i => "fresh-" ++ toString i) [⟨"hello", none⟩] [[1]])
    (by decide)

end BetterQdrant
